import Mathlib

/-!
Shallow embedding of the install/update engine in `src/repo/installer.go`
(package `repo` of the glide dependency manager), together with proofs of
the specified properties.

External collaborators (the VCS primitives `VcsGet`/`VcsUpdate`, the
transitive resolver, `gpath.Vendor`, the config hash) are modelled as
function parameters; the filesystem is modelled as the list of existing
paths.  Stateful Go code becomes explicit state passing; instrumented
outputs record the externally observable calls (fetches, worker-pool
invocations, log messages) so the theorems can speak about them.
-/

set_option autoImplicit false

namespace Glide

/-- Embeds `cfg.Dependency` (the fields used by `src/repo/installer.go`).
Field defaults are the Go zero values, as produced by a Go composite
literal that omits the field. -/
structure Dependency where
  Name : String
  Reference : String := ""
  Repository : String := ""
  VcsType : String := ""
  Subpackages : List String := []
  Arch : List String := []
  Os : List String := []
deriving DecidableEq, Repr

/-- Embeds `cfg.Lock`, one entry of a lockfile. -/
structure Lock where
  Name : String
  Version : String := ""
  Repository : String := ""
  VcsType : String := ""
  Subpackages : List String := []
  Arch : List String := []
  Os : List String := []
deriving DecidableEq, Repr

/-- Embeds `cfg.Lockfile` as used by `Install` and `Update`. -/
structure Lockfile where
  Hash : String := ""
  Imports : List Lock := []
  DevImports : List Lock := []
deriving DecidableEq, Repr

/-- Embeds `cfg.Config` (the fields used by `src/repo/installer.go`). -/
structure Config where
  Name : String := ""
  Imports : List Dependency := []
  DevImports : List Dependency := []
deriving DecidableEq, Repr

/-- Embeds the `Installer` struct of `src/repo/installer.go`. -/
structure Installer where
  Force : Bool := false
  Home : String := ""
  UseCache : Bool := false
  UseCacheGopath : Bool := false
  UseGopath : Bool := false
  UpdateVendored : Bool := false
  DeleteUnused : Bool := false
deriving DecidableEq, Repr

/-- Models `filepath.Join(a, b)`.  (Path cleaning is irrelevant to the
properties proved here; joining with a separator keeps the model simple.) -/
def pathJoin (a b : String) : String := a ++ "/" ++ b

/-- Splits a character list at every occurrence of `sep`; `cur` is the
(reversed) segment being accumulated.  Kernel-reducible replacement for
`String.splitOn`. -/
def splitSegsAux (sep : Char) (cur : List Char) : List Char → List (List Char)
  | [] => [cur.reverse]
  | x :: xs =>
    if x = sep then cur.reverse :: splitSegsAux sep [] xs
    else splitSegsAux sep (x :: cur) xs

/-- The `/`-separated segments of a path string. -/
def pathSegs (s : String) : List String :=
  (splitSegsAux '/' [] s.data).map String.mk

/-- Rejoins path segments with `/` (kernel-reducible replacement for
`String.intercalate`). -/
def joinSegs : List String → String
  | [] => ""
  | [x] => x
  | x :: xs => x ++ "/" ++ joinSegs xs

/-- Modelled from the spec: `util.NormalizeName` is code of this repository
that is not under `src/` (only its caller `depsFromPackages` is).  Per
the spec, it is a pure function decomposing a package import path into
(repository root, sub-package suffix), where the root is the prefix
identifying the upstream project and the suffix is whatever remains
(possibly empty); the spec's concrete test vector normalizes
`example.com/a/sub1` to root `example.com/a` with suffix `sub1`. -/
def NormalizeName (name : String) : String × String :=
  let parts := pathSegs name
  if parts.length ≤ 2 then (name, "")
  else (joinSegs (parts.take 2), joinSegs (parts.drop 2))

/-- The loop body and loop of `depsFromPackages`
(`src/repo/installer.go:251-278`), with the map `seen` replaced by a
name lookup in the accumulated list `deps` (the Go map holds a pointer
into that list, and repository roots in `deps` are unique, so membership
and in-place mutation coincide with lookup and update by `Name`).
The normalizer is a parameter, instantiated with `NormalizeName`. -/
def depsFromPackagesAux (normalize : String → String × String) :
    List Dependency → List String → List Dependency
  | deps, [] => deps
  | deps, p :: ps =>
    if deps.any (fun d => d.Name == (normalize p).1) then
      depsFromPackagesAux normalize
        (if (normalize p).2 = "" then deps
         else deps.map (fun d =>
           if d.Name == (normalize p).1 then
             { d with Subpackages := d.Subpackages ++ [(normalize p).2] }
           else d)) ps
    else
      depsFromPackagesAux normalize
        (deps ++ [{ Name := (normalize p).1,
                    Subpackages :=
                      if (normalize p).2 = "" then [] else [(normalize p).2] }]) ps

/-- Embeds `depsFromPackages` (`src/repo/installer.go:251-278`). -/
def depsFromPackages (normalize : String → String × String)
    (pkgs : List String) : List Dependency :=
  depsFromPackagesAux normalize [] pkgs

/-- First-occurrence de-duplication, written with an explicit accumulator
of already-seen elements.  This is the specification-side description of
"one entry per distinct element, in order of first appearance", used to
state what the aggregator does to repository roots; it also embodies the
spec's description of `cfg.Config.DeDupe` ("exact-duplicate removal"). -/
def dedupeFirstAux {α : Type} [DecidableEq α] (acc : List α) : List α → List α
  | [] => acc
  | x :: xs =>
    if x ∈ acc then dedupeFirstAux acc xs
    else dedupeFirstAux (acc ++ [x]) xs

/-- See `dedupeFirstAux`: the distinct elements of `l` in first-seen order. -/
def dedupeFirst {α : Type} [DecidableEq α] (l : List α) : List α :=
  dedupeFirstAux [] l

/-- The filesystem, as the set (list) of existing paths; `os.Stat`
succeeding is membership. -/
abbrev FileSys := List String

/-- The external primitive `VcsGet(dep, dest, home, cache, cacheGopath,
useGopath)`: clones a working copy at `dest`.  Modelled as a parameter
transforming the filesystem, returning the new filesystem on success or
an error message. -/
abbrev VcsGetFn :=
  Dependency → String → String → Bool → Bool → Bool → FileSys →
    Except String FileSys

/-- The external primitive `VcsUpdate(dep, cwd, installer)`: updates an
existing working copy.  Modelled as a parameter returning success or an
error message. -/
abbrev VcsUpdateFn := Dependency → String → Installer → Except String Unit

/-- Observable outcome of a checkout run: the targets fetched (in order),
the resulting filesystem, and the error returned (`none` = nil). -/
structure RunOut where
  fetched : List String
  fs : FileSys
  err : Option String
deriving DecidableEq, Repr

/-- Embeds `(*Installer).checkoutImports` (`src/repo/installer.go:111-128`):
for each dependency in order, if `dest/Name` already exists it is skipped;
otherwise `VcsGet` is invoked, and its error (if any) aborts the loop and
is returned. -/
def checkoutImports (vcsGet : VcsGetFn) (i : Installer) :
    List Dependency → String → FileSys → RunOut
  | [], _, fs => ⟨[], fs, none⟩
  | c :: rest, dest, fs =>
    if pathJoin dest c.Name ∈ fs then checkoutImports vcsGet i rest dest fs
    else
      match vcsGet c (pathJoin dest c.Name) i.Home i.UseCache i.UseCacheGopath
          i.UseGopath fs with
      | .error e => ⟨[pathJoin dest c.Name], fs, some e⟩
      | .ok fs' =>
        let out := checkoutImports vcsGet i rest dest fs'
        ⟨pathJoin dest c.Name :: out.fetched, out.fs, out.err⟩

/-- Embeds `(*Installer).Checkout` (`src/repo/installer.go:95-109`):
checks out `conf.Imports` into the hard-coded `./vendor`, and, when
`useDev` is set and the first pass succeeded, `conf.DevImports` too. -/
def Installer.Checkout (vcsGet : VcsGetFn) (i : Installer) (conf : Config)
    (useDev : Bool) (fs : FileSys) : RunOut :=
  match checkoutImports vcsGet i conf.Imports "./vendor" fs with
  | ⟨f1, fs1, some e⟩ => ⟨f1, fs1, some e⟩
  | ⟨f1, fs1, none⟩ =>
    if useDev then
      match checkoutImports vcsGet i conf.DevImports "./vendor" fs1 with
      | ⟨f2, fs2, r2⟩ => ⟨f1 ++ f2, fs2, r2⟩
    else ⟨f1, fs1, none⟩

/-- Observable outcome of a `MissingPackageHandler` call: the `VcsGet`
fetches performed as (package name, destination) pairs, the resulting
filesystem, the `handled` flag, and the error returned. -/
structure HandlerOut where
  fetches : List (String × String)
  fs : FileSys
  handled : Bool
  err : Option String
deriving DecidableEq, Repr

/-- Embeds the `MissingPackageHandler` struct
(`src/repo/installer.go:285-289`). -/
structure MissingPackageHandler where
  destination : String
  home : String
  cache : Bool
  cacheGopath : Bool
  useGopath : Bool
deriving DecidableEq, Repr

/-- Embeds `(*MissingPackageHandler).NotFound`
(`src/repo/installer.go:291-299`): builds a dependency whose `Name` is the
package path as given, fetches it via `VcsGet` into
`destination/<pkg>`, and returns `(true, nil)` on success or
`(false, err)` on failure. -/
def MissingPackageHandler.NotFound (vcsGet : VcsGetFn)
    (m : MissingPackageHandler) (pkg : String) (fs : FileSys) : HandlerOut :=
  let d : Dependency := { Name := pkg }
  let dest := pathJoin m.destination pkg
  match vcsGet d dest m.home m.cache m.cacheGopath m.useGopath fs with
  | .error e => ⟨[(pkg, dest)], fs, false, some e⟩
  | .ok fs' => ⟨[(pkg, dest)], fs', true, none⟩

/-- Embeds `(*MissingPackageHandler).OnGopath`
(`src/repo/installer.go:301-304`): logs and returns `(false, nil)`,
performing no fetch. -/
def MissingPackageHandler.OnGopath (_m : MissingPackageHandler)
    (_pkg : String) (fs : FileSys) : HandlerOut :=
  ⟨[], fs, false, none⟩

/-- The warning `ConcurrentUpdate` logs when `VcsUpdate` fails for a
dependency (`src/repo/installer.go:187`). -/
def updateWarning (d : Dependency) (e : String) : String :=
  "Update failed for " ++ d.Name ++ ": " ++ e

/-- Embeds `ConcurrentUpdate` (`src/repo/installer.go:176-208`) as the
sequential function it computes: every dependency in `deps` is passed to
`VcsUpdate` exactly once with working directory `cwd`; a failure is
turned into a warning and processing continues.  The return value is the
list of warnings — the Go function has no error return at all.  (The
worker-pool scheduling itself — `concurrentWorkers` goroutines, channel
blocking, `sync.WaitGroup` — is not part of this sequential model.) -/
def ConcurrentUpdate (vcsUpdate : VcsUpdateFn) (deps : List Dependency)
    (cwd : String) (i : Installer) : List String :=
  match deps with
  | [] => []
  | d :: rest =>
    match vcsUpdate d cwd i with
    | .error e => updateWarning d e :: ConcurrentUpdate vcsUpdate rest cwd i
    | .ok _ => ConcurrentUpdate vcsUpdate rest cwd i

/-- Projects one lockfile entry to the `cfg.Dependency` that
`(*Installer).Install` builds from it (`src/repo/installer.go:54-77`):
the lock's `Version` becomes the dependency's `Reference`. -/
def lockToDependency (v : Lock) : Dependency :=
  { Name := v.Name, Reference := v.Version, Repository := v.Repository,
    VcsType := v.VcsType, Subpackages := v.Subpackages, Arch := v.Arch,
    Os := v.Os }

/-- Modelled from the spec: `cfg.Config.DeDupe` is code of this repository
that is not under `src/` (only its caller `Install` is).  Per the spec it
performs "exact-duplicate removal keyed by identity" on the import and
dev-import lists. -/
def Config.DeDupe (c : Config) : Config :=
  { c with Imports := dedupeFirst c.Imports,
           DevImports := dedupeFirst c.DevImports }

/-- Observable outcome of `Install`: the `ConcurrentUpdate` invocations
made (argument lists and working directory, in order), the warnings they
produced, the info messages logged, the returned config and the returned
error (`none` = nil). -/
structure InstallOut where
  calls : List (List Dependency × String)
  warnings : List String
  infos : List String
  conf : Config
  err : Option String
deriving DecidableEq, Repr

/-- Embeds `(*Installer).Install` (`src/repo/installer.go:41-89`).
`vendor` models `gpath.Vendor()` (external).  The lockfile is projected
to a fresh config, de-duplicated; when the de-duplicated import list is
empty the function logs "No dependencies found. Nothing installed." and
returns with no update invocation at all; otherwise `ConcurrentUpdate`
runs once for imports and once for dev-imports. -/
def Installer.Install (vendor : Except String String)
    (vcsUpdate : VcsUpdateFn) (i : Installer) (lock : Lockfile)
    (conf : Config) : InstallOut :=
  match vendor with
  | .error e => ⟨[], [], [], conf, some e⟩
  | .ok cwd =>
    let newConf : Config :=
      Config.DeDupe
        { Name := conf.Name,
          Imports := lock.Imports.map lockToDependency,
          DevImports := lock.DevImports.map lockToDependency }
    if newConf.Imports = [] then
      ⟨[], [], ["No dependencies found. Nothing installed."], newConf, none⟩
    else
      ⟨[(newConf.Imports, cwd), (newConf.DevImports, cwd)],
        ConcurrentUpdate vcsUpdate newConf.Imports cwd i
          ++ ConcurrentUpdate vcsUpdate newConf.DevImports cwd i,
        [], newConf, none⟩

/-- Projects a dependency into a lockfile entry: its `Reference` becomes
the lock's `Version`. -/
def depToLock (d : Dependency) : Lock :=
  { Name := d.Name, Version := d.Reference, Repository := d.Repository,
    VcsType := d.VcsType, Subpackages := d.Subpackages, Arch := d.Arch,
    Os := d.Os }

/-- Modelled from the spec: `cfg.NewLockfile` is code of this repository
that is not under `src/` (only its caller `Update` is).  Per the spec the
lock record is a flattened snapshot of the resolved dependency list plus
a content hash of the originating configuration. -/
def NewLockfile (deps : List Dependency) (hash : String) : Lockfile :=
  { Hash := hash, Imports := deps.map depToLock, DevImports := [] }

/-- Is the first character list a leading segment of the second?
Kernel-reducible replacement for `String.isPrefixOf`. -/
def isPre : List Char → List Char → Bool
  | [], _ => true
  | _ :: _, [] => false
  | a :: as, b :: bs => a = b && isPre as bs

/-- Models Go's `strings.TrimPrefix`: drops `pre` from the front of `s`
when it starts with it, otherwise returns `s` unchanged. -/
def trimLeading (pre s : String) : String :=
  if isPre pre.data s.data then String.mk (s.data.drop pre.data.length) else s

/-- Embeds `allPackages` (`src/repo/installer.go:211-230`).  `vendor`
models `gpath.Vendor()` and `resolveAll` models
`(*dependency.Resolver).ResolveAll` (both external): with no deps the
result is empty without consulting either; otherwise a vendor-lookup or
walk failure is returned, and on success every returned path is stripped
of the vendor-directory prefix. -/
def allPackages (vendor : Except String String)
    (resolveAll : List Dependency → Except String (List String))
    (deps : List Dependency) : Except String (List String) :=
  if deps = [] then .ok []
  else
    match vendor with
    | .error e => .error e
    | .ok vdir =>
      match resolveAll deps with
      | .error e => .error e
      | .ok ll => .ok (ll.map (trimLeading (vdir ++ "/")))

/-- How a run of `Update` ends: `died` models `msg.Die` (process
termination on a resolution failure), `errored` a returned non-nil error,
`ok` a returned lockfile. -/
inductive UpdateResult where
  | died (m : String)
  | errored (e : String)
  | ok (lf : Lockfile)
deriving DecidableEq, Repr

/-- Observable outcome of `Update`: the `ConcurrentUpdate` invocations
made, the warnings they produced, and how the run ended. -/
structure UpdateOut where
  calls : List (List Dependency × String)
  warnings : List String
  result : UpdateResult
deriving DecidableEq, Repr

/-- Embeds `(*Installer).Update` (`src/repo/installer.go:137-173`).
External collaborators as parameters: `newResolver` models
`dependency.NewResolver(base)` succeeding or failing, `vendor` and
`resolveAll` feed `allPackages`, `hash` models `(*cfg.Config).Hash`.
Resolver-construction failure and walk failure hit `msg.Die`; otherwise
the package list is aggregated by `depsFromPackages` with
`NormalizeName`, updated through `ConcurrentUpdate`, and a fresh lockfile
is produced from the aggregated deps and the config hash. -/
def Installer.Update (newResolver : Except String Unit)
    (vendor : Except String String)
    (resolveAll : List Dependency → Except String (List String))
    (vcsUpdate : VcsUpdateFn) (hash : Config → Except String String)
    (i : Installer) (conf : Config) : UpdateOut :=
  match newResolver with
  | .error e => ⟨[], [], .died ("Failed to create a resolver: " ++ e)⟩
  | .ok _ =>
    match allPackages vendor resolveAll conf.Imports with
    | .error e =>
      ⟨[], [], .died ("Failed to retrieve a list of dependencies: " ++ e)⟩
    | .ok packages =>
      let deps := depsFromPackages NormalizeName packages
      let warns := ConcurrentUpdate vcsUpdate deps "." i
      match hash conf with
      | .error e => ⟨[(deps, ".")], warns, .errored e⟩
      | .ok h => ⟨[(deps, ".")], warns, .ok (NewLockfile deps h)⟩

/-! ### Lemmas about the dependency aggregator -/

lemma any_name_eq (deps : List Dependency) (rr : String) :
    (deps.any (fun d => d.Name == rr)) = true
      ↔ rr ∈ deps.map (fun d => d.Name) := by
  simp [List.any_eq_true, List.mem_map]

lemma map_name_update (deps : List Dependency) (rr sp : String) :
    ((deps.map (fun d =>
        if d.Name == rr then { d with Subpackages := d.Subpackages ++ [sp] }
        else d)).map (fun d => d.Name))
      = deps.map (fun d => d.Name) := by
  induction deps with
  | nil => rfl
  | cons d ds ih =>
    simp only [List.map_cons, ih]
    congr 1
    split <;> rfl

lemma depsFromPackagesAux_names (normalize : String → String × String)
    (ps : List String) :
    ∀ deps : List Dependency,
      (depsFromPackagesAux normalize deps ps).map (fun d => d.Name)
        = dedupeFirstAux (deps.map (fun d => d.Name))
            (ps.map (fun p => (normalize p).1)) := by
  induction ps with
  | nil => intro deps; rfl
  | cons p ps ih =>
    intro deps
    simp only [depsFromPackagesAux, List.map_cons, dedupeFirstAux]
    by_cases hmem : (normalize p).1 ∈ deps.map (fun d => d.Name)
    · rw [if_pos ((any_name_eq deps _).mpr hmem), if_pos hmem]
      by_cases hsp : (normalize p).2 = ""
      · rw [if_pos hsp, ih]
      · rw [if_neg hsp, ih, map_name_update]
    · rw [if_neg (fun h => hmem ((any_name_eq deps _).mp h)), if_neg hmem, ih,
        List.map_append]
      rfl

lemma dedupeFirstAux_nodup {α : Type} [DecidableEq α] (l : List α) :
    ∀ acc : List α, acc.Nodup → (dedupeFirstAux acc l).Nodup := by
  induction l with
  | nil => intro acc h; exact h
  | cons x xs ih =>
    intro acc h
    by_cases hx : x ∈ acc
    · rw [dedupeFirstAux, if_pos hx]
      exact ih acc h
    · rw [dedupeFirstAux, if_neg hx]
      refine ih _ ?_
      simp [List.nodup_append, h, hx]

lemma mem_dedupeFirstAux {α : Type} [DecidableEq α] (l : List α) :
    ∀ (acc : List α) (y : α), y ∈ dedupeFirstAux acc l ↔ y ∈ acc ∨ y ∈ l := by
  induction l with
  | nil =>
    intro acc y
    rw [dedupeFirstAux]
    simp
  | cons x xs ih =>
    intro acc y
    by_cases hx : x ∈ acc
    · rw [dedupeFirstAux, if_pos hx, ih]
      simp only [List.mem_cons]
      constructor
      · tauto
      · rintro (h | rfl | h) <;> tauto
    · rw [dedupeFirstAux, if_neg hx, ih]
      simp only [List.mem_append, List.mem_singleton, List.mem_cons]
      tauto

lemma depsFromPackagesAux_ref (normalize : String → String × String)
    (ps : List String) :
    ∀ deps : List Dependency, (∀ d ∈ deps, d.Reference = "") →
      ∀ d ∈ depsFromPackagesAux normalize deps ps, d.Reference = "" := by
  induction ps with
  | nil => intro deps h; exact h
  | cons p ps ih =>
    intro deps h
    simp only [depsFromPackagesAux]
    split
    · split
      · exact ih deps h
      · refine ih _ ?_
        intro d hd
        simp only [List.mem_map] at hd
        obtain ⟨d0, hd0, rfl⟩ := hd
        split
        · exact h d0 hd0
        · exact h d0 hd0
    · refine ih _ ?_
      intro d hd
      rcases List.mem_append.mp hd with h1 | h2
      · exact h d h1
      · rw [List.mem_singleton.mp h2]

/-! ### Lemmas about checkout -/

/-- The modelling assumption on the external `VcsGet`: a successful clone
creates the target path and never removes existing paths. -/
def VcsGetMono (vcsGet : VcsGetFn) : Prop :=
  ∀ c t home ca cg ug fs fs', vcsGet c t home ca cg ug fs = .ok fs' →
    t ∈ fs' ∧ ∀ x ∈ fs, x ∈ fs'

lemma checkoutImports_mono (vcsGet : VcsGetFn) (i : Installer)
    (hm : VcsGetMono vcsGet) (deps : List Dependency) (dest : String) :
    ∀ fs : FileSys, ∀ x ∈ fs, x ∈ (checkoutImports vcsGet i deps dest fs).fs := by
  induction deps with
  | nil => intro fs x hx; exact hx
  | cons c rest ih =>
    intro fs x hx
    simp only [checkoutImports]
    by_cases hmem : pathJoin dest c.Name ∈ fs
    · rw [if_pos hmem]; exact ih fs x hx
    · rw [if_neg hmem]
      cases hv : vcsGet c (pathJoin dest c.Name) i.Home i.UseCache
          i.UseCacheGopath i.UseGopath fs with
      | error e => exact hx
      | ok fs' => exact ih fs' x ((hm _ _ _ _ _ _ _ _ hv).2 x hx)

lemma checkoutImports_fetched_not_mem (vcsGet : VcsGetFn) (i : Installer)
    (hm : VcsGetMono vcsGet) (deps : List Dependency) (dest : String) :
    ∀ fs : FileSys, ∀ t ∈ (checkoutImports vcsGet i deps dest fs).fetched,
      t ∉ fs := by
  induction deps with
  | nil =>
    intro fs t ht
    simp only [checkoutImports, List.not_mem_nil] at ht
  | cons c rest ih =>
    intro fs t ht hmemt
    simp only [checkoutImports] at ht
    by_cases hmem : pathJoin dest c.Name ∈ fs
    · rw [if_pos hmem] at ht; exact ih fs t ht hmemt
    · rw [if_neg hmem] at ht
      cases hv : vcsGet c (pathJoin dest c.Name) i.Home i.UseCache
          i.UseCacheGopath i.UseGopath fs with
      | error e =>
        rw [hv] at ht
        rw [List.mem_singleton.mp ht] at hmemt
        exact hmem hmemt
      | ok fs' =>
        rw [hv] at ht
        rcases List.mem_cons.mp ht with rfl | ht'
        · exact hmem hmemt
        · exact ih fs' t ht' ((hm _ _ _ _ _ _ _ _ hv).2 t hmemt)

lemma checkoutImports_success_mem (vcsGet : VcsGetFn) (i : Installer)
    (hm : VcsGetMono vcsGet) (deps : List Dependency) (dest : String) :
    ∀ fs : FileSys, (checkoutImports vcsGet i deps dest fs).err = none →
      ∀ c ∈ deps, pathJoin dest c.Name ∈ (checkoutImports vcsGet i deps dest fs).fs := by
  induction deps with
  | nil => intro fs _ c hc; cases hc
  | cons c rest ih =>
    intro fs herr d hd
    simp only [checkoutImports] at herr ⊢
    by_cases hmem : pathJoin dest c.Name ∈ fs
    · rw [if_pos hmem] at herr ⊢
      rcases List.mem_cons.mp hd with rfl | hd'
      · exact checkoutImports_mono vcsGet i hm rest dest fs _ hmem
      · exact ih fs herr d hd'
    · rw [if_neg hmem] at herr ⊢
      cases hv : vcsGet c (pathJoin dest c.Name) i.Home i.UseCache
          i.UseCacheGopath i.UseGopath fs with
      | error e => rw [hv] at herr; cases herr
      | ok fs' =>
        rw [hv] at herr
        rcases List.mem_cons.mp hd with rfl | hd'
        · exact checkoutImports_mono vcsGet i hm rest dest fs' _
            ((hm _ _ _ _ _ _ _ _ hv).1)
        · exact ih fs' herr d hd'

lemma checkoutImports_noop (vcsGet : VcsGetFn) (i : Installer)
    (deps : List Dependency) (dest : String) :
    ∀ fs : FileSys, (∀ c ∈ deps, pathJoin dest c.Name ∈ fs) →
      checkoutImports vcsGet i deps dest fs = ⟨[], fs, none⟩ := by
  induction deps with
  | nil => intro fs _; rfl
  | cons c rest ih =>
    intro fs h
    simp only [checkoutImports]
    rw [if_pos (h c (List.mem_cons_self c rest))]
    exact ih fs (fun d hd => h d (List.mem_cons_of_mem c hd))

/-! ### Claim theorems -/

/-- C6: `Checkout` fetches only those declared dependencies whose target
directory under the vendor destination does not already exist, leaves
pre-existing directories untouched, and re-running it immediately after a
successful run performs zero fetches and changes nothing (idempotence).
Hypotheses: the external `VcsGet` creates its target and removes nothing
(`VcsGetMono`), and the first run succeeded. -/
theorem checkout_fetches_missing_only_and_idempotent
    (vcsGet : VcsGetFn) (i : Installer) (conf : Config) (useDev : Bool)
    (fs : FileSys) (hm : VcsGetMono vcsGet)
    (hok : (Installer.Checkout vcsGet i conf useDev fs).err = none) :
    (∀ t ∈ (Installer.Checkout vcsGet i conf useDev fs).fetched, t ∉ fs)
      ∧ (∀ x ∈ fs, x ∈ (Installer.Checkout vcsGet i conf useDev fs).fs)
      ∧ Installer.Checkout vcsGet i conf useDev
            ((Installer.Checkout vcsGet i conf useDev fs).fs)
          = ⟨[], (Installer.Checkout vcsGet i conf useDev fs).fs, none⟩ := by
  have hf1 := checkoutImports_fetched_not_mem vcsGet i hm conf.Imports "./vendor" fs
  have hmono1 := checkoutImports_mono vcsGet i hm conf.Imports "./vendor" fs
  have hsucc1 := checkoutImports_success_mem vcsGet i hm conf.Imports "./vendor" fs
  cases h1 : checkoutImports vcsGet i conf.Imports "./vendor" fs with
  | mk f1 fs1 r1 =>
    rw [h1] at hf1 hmono1 hsucc1
    simp only [Installer.Checkout, h1] at hok ⊢
    cases r1 with
    | some e => simp at hok
    | none =>
      cases useDev with
      | false =>
        simp only [Bool.false_eq_true, if_false] at hok ⊢
        refine ⟨hf1, hmono1, ?_⟩
        have hnoop := checkoutImports_noop vcsGet i conf.Imports "./vendor" fs1
          (hsucc1 rfl)
        simp only [Installer.Checkout, hnoop, Bool.false_eq_true, if_false]
      | true =>
        simp only [if_true] at hok ⊢
        have hf2 := checkoutImports_fetched_not_mem vcsGet i hm conf.DevImports
          "./vendor" fs1
        have hmono2 := checkoutImports_mono vcsGet i hm conf.DevImports
          "./vendor" fs1
        have hsucc2 := checkoutImports_success_mem vcsGet i hm conf.DevImports
          "./vendor" fs1
        cases h2 : checkoutImports vcsGet i conf.DevImports "./vendor" fs1 with
        | mk f2 fs2 r2 =>
          rw [h2] at hf2 hmono2 hsucc2
          simp only [h2] at hok ⊢
          cases r2 with
          | some e => simp at hok
          | none =>
            refine ⟨?_, ?_, ?_⟩
            · intro t ht
              rcases List.mem_append.mp ht with ht1 | ht2
              · exact hf1 t ht1
              · intro htfs
                exact hf2 t ht2 (hmono1 t htfs)
            · intro x hx
              exact hmono2 x (hmono1 x hx)
            · have himp : ∀ c ∈ conf.Imports, pathJoin "./vendor" c.Name ∈ fs2 :=
                fun c hc => hmono2 _ (hsucc1 rfl c hc)
              have hnoop1 := checkoutImports_noop vcsGet i conf.Imports
                "./vendor" fs2 himp
              have hnoop2 := checkoutImports_noop vcsGet i conf.DevImports
                "./vendor" fs2 (hsucc2 rfl)
              simp only [Installer.Checkout, hnoop1, if_true, hnoop2,
                List.nil_append]

/-- Witness for `checkout_fetches_missing_only_and_idempotent`: a
concrete successful checkout whose immediate re-run fetches nothing and
leaves the filesystem unchanged. -/
theorem checkout_idempotent_witness :
    Installer.Checkout (fun _ t _ _ _ _ fs => Except.ok (t :: fs)) {}
        { Imports := [{ Name := "x" }] } false
        ((Installer.Checkout (fun _ t _ _ _ _ fs => Except.ok (t :: fs)) {}
            { Imports := [{ Name := "x" }] } false []).fs)
      = ⟨[],
          (Installer.Checkout (fun _ t _ _ _ _ fs => Except.ok (t :: fs)) {}
            { Imports := [{ Name := "x" }] } false []).fs, none⟩ :=
  (checkout_fetches_missing_only_and_idempotent
      (fun _ t _ _ _ _ fs => Except.ok (t :: fs)) {}
      { Imports := [{ Name := "x" }] } false []
      (fun _ _ _ _ _ _ _ _ hv => by
        injection hv with h2
        subst h2
        exact ⟨List.mem_cons_self _ _, fun x hx => List.mem_cons_of_mem _ hx⟩)
      (by decide)).2.2

/-- C1: for every input list of package paths and every normalizer,
`depsFromPackages` returns exactly one Dependency per distinct repository
root (the names are exactly the distinct roots, with no duplicate), and
the Dependencies appear in order of the first appearance of their root in
the input list (the name list equals the first-seen de-duplication of the
root list). -/
theorem depsFromPackages_one_per_root_first_seen
    (normalize : String → String × String) (pkgs : List String) :
    (depsFromPackages normalize pkgs).map (fun d => d.Name)
        = dedupeFirst (pkgs.map (fun p => (normalize p).1))
      ∧ ((depsFromPackages normalize pkgs).map (fun d => d.Name)).Nodup
      ∧ ∀ r, (r ∈ (depsFromPackages normalize pkgs).map (fun d => d.Name)
          ↔ r ∈ pkgs.map (fun p => (normalize p).1)) := by
  have h : (depsFromPackages normalize pkgs).map (fun d => d.Name)
      = dedupeFirst (pkgs.map (fun p => (normalize p).1)) :=
    depsFromPackagesAux_names normalize pkgs []
  refine ⟨h, ?_, ?_⟩
  · rw [h]
    exact dedupeFirstAux_nodup _ [] List.nodup_nil
  · intro r
    rw [h]
    show r ∈ dedupeFirstAux [] _ ↔ _
    rw [mem_dedupeFirstAux]
    simp

/-- C3: sub-package suffixes accumulate without de-duplication:
aggregating `[example.com/a/sub1, example.com/a/sub2, example.com/a/sub1]`
yields a single Dependency for `example.com/a` whose Subpackages list is
`[sub1, sub2, sub1]`. -/
theorem depsFromPackages_subpackages_accumulate :
    depsFromPackages NormalizeName
        ["example.com/a/sub1", "example.com/a/sub2", "example.com/a/sub1"]
      = [{ Name := "example.com/a", Reference := "",
           Subpackages := ["sub1", "sub2", "sub1"] }] := by
  decide

/-- C5: `OnGopath` returns handled=false and nil error regardless of its
input, performing no fetch and leaving the filesystem unchanged. -/
theorem onGopath_never_handles (m : MissingPackageHandler) (pkg : String)
    (fs : FileSys) :
    MissingPackageHandler.OnGopath m pkg fs
      = ⟨[], fs, false, none⟩ := rfl

/-- C4 counterexample: `NotFound` on `example.com/a/sub1` performs its
single fetch for the package path as given, which differs from the
package's repository root `example.com/a` — so the fetch is not of the
repository root, refuting the claim as stated. -/
theorem notFound_fetch_is_not_root :
    ((MissingPackageHandler.NotFound (fun _ _ _ _ _ _ fs => .ok fs)
          ⟨"vendor", "", false, false, false⟩ "example.com/a/sub1"
          []).fetches.map Prod.fst)
        = ["example.com/a/sub1"]
      ∧ (NormalizeName "example.com/a/sub1").1 = "example.com/a"
      ∧ ("example.com/a/sub1" : String) ≠ "example.com/a" := by
  refine ⟨rfl, by decide, by decide⟩

/-- C4 (amended): for every package path, `NotFound` performs exactly one
fetch — of the package path exactly as given (not of its repository
root) — into `destination/<pkg>`, returns handled=true with nil error
when the fetch succeeds, and handled=false with the fetch's non-nil
error when it fails. -/
theorem notFound_single_fetch (vcsGet : VcsGetFn)
    (m : MissingPackageHandler) (pkg : String) (fs : FileSys) :
    (MissingPackageHandler.NotFound vcsGet m pkg fs).fetches
        = [(pkg, pathJoin m.destination pkg)]
      ∧ (∀ fs', vcsGet { Name := pkg } (pathJoin m.destination pkg) m.home
            m.cache m.cacheGopath m.useGopath fs = .ok fs' →
          (MissingPackageHandler.NotFound vcsGet m pkg fs).handled = true
            ∧ (MissingPackageHandler.NotFound vcsGet m pkg fs).err = none)
      ∧ ∀ e, vcsGet { Name := pkg } (pathJoin m.destination pkg) m.home
            m.cache m.cacheGopath m.useGopath fs = .error e →
          (MissingPackageHandler.NotFound vcsGet m pkg fs).handled = false
            ∧ (MissingPackageHandler.NotFound vcsGet m pkg fs).err = some e := by
  cases hv : vcsGet { Name := pkg } (pathJoin m.destination pkg) m.home
      m.cache m.cacheGopath m.useGopath fs with
  | error e =>
    refine ⟨?_, ?_, ?_⟩
    · simp [MissingPackageHandler.NotFound, hv]
    · intro fs' h
      exact Except.noConfusion h
    · intro e' he'
      injection he' with h
      subst h
      constructor <;> simp [MissingPackageHandler.NotFound, hv]
  | ok fs0 =>
    refine ⟨?_, ?_, ?_⟩
    · simp [MissingPackageHandler.NotFound, hv]
    · intro fs' _
      constructor <;> simp [MissingPackageHandler.NotFound, hv]
    · intro e he
      exact Except.noConfusion he

/-- Witness for `notFound_single_fetch`: at a concrete failing fetch the
theorem yields handled=false and the fetch's error. -/
theorem notFound_single_fetch_witness :
    (MissingPackageHandler.NotFound (fun _ _ _ _ _ _ _ => .error "boom")
          ⟨"vendor", "", false, false, false⟩ "p" []).handled = false
      ∧ (MissingPackageHandler.NotFound (fun _ _ _ _ _ _ _ => .error "boom")
          ⟨"vendor", "", false, false, false⟩ "p" []).err = some "boom" :=
  (notFound_single_fetch (fun _ _ _ _ _ _ _ => .error "boom")
      ⟨"vendor", "", false, false, false⟩ "p" []).2.2 "boom" rfl

/-- C7: with the vendor directory located, if the lock-derived import
list is empty after de-duplication then `Install` reports "nothing to
install" and returns a nil error without invoking any fetch or update
operation (neither for imports nor for dev-imports); otherwise it
invokes the worker pool exactly twice, once for imports and once for
dev-imports. -/
theorem install_empty_imports_early_return (vendor : Except String String)
    (cwd : String) (vcsUpdate : VcsUpdateFn) (i : Installer)
    (lock : Lockfile) (conf : Config) (hv : vendor = .ok cwd) :
    (dedupeFirst (lock.Imports.map lockToDependency) = [] →
        (Installer.Install vendor vcsUpdate i lock conf).calls = []
          ∧ (Installer.Install vendor vcsUpdate i lock conf).err = none
          ∧ (Installer.Install vendor vcsUpdate i lock conf).infos
              = ["No dependencies found. Nothing installed."])
      ∧ (dedupeFirst (lock.Imports.map lockToDependency) ≠ [] →
          (Installer.Install vendor vcsUpdate i lock conf).calls
            = [(dedupeFirst (lock.Imports.map lockToDependency), cwd),
               (dedupeFirst (lock.DevImports.map lockToDependency), cwd)]) := by
  subst hv
  constructor
  · intro h
    refine ⟨?_, ?_, ?_⟩ <;> simp [Installer.Install, Config.DeDupe, h]
  · intro h
    simp [Installer.Install, Config.DeDupe, h]

/-- Witness for `install_empty_imports_early_return`: an empty lockfile
installs nothing and returns nil error. -/
theorem install_empty_imports_early_return_witness :
    (Installer.Install (.ok "vendor") (fun _ _ _ => .ok ()) {} {} {}).calls = []
      ∧ (Installer.Install (.ok "vendor") (fun _ _ _ => .ok ()) {} {} {}).err
          = none
      ∧ (Installer.Install (.ok "vendor") (fun _ _ _ => .ok ()) {} {} {}).infos
          = ["No dependencies found. Nothing installed."] :=
  (install_empty_imports_early_return (.ok "vendor") "vendor"
      (fun _ _ _ => .ok ()) {} {} {} rfl).1 rfl

/-- C8: a per-dependency update failure is recorded only as a warning and
never surfaces as an error: the warning of every failing dependency is in
`ConcurrentUpdate`'s warning list (which is its whole return value — the
Go function returns nothing), and the config and error returned by
`Install` and the result of `Update` are identical for any two update
operations, i.e. unaffected by any number of per-dependency failures. -/
theorem concurrent_update_failures_only_warn (vcsU vcsU' : VcsUpdateFn)
    (vendor : Except String String) (newResolver : Except String Unit)
    (resolveAll : List Dependency → Except String (List String))
    (hash : Config → Except String String) (i : Installer)
    (lock : Lockfile) (conf : Config) (deps : List Dependency)
    (cwd : String) :
    ((Installer.Install vendor vcsU i lock conf).conf
          = (Installer.Install vendor vcsU' i lock conf).conf
        ∧ (Installer.Install vendor vcsU i lock conf).err
          = (Installer.Install vendor vcsU' i lock conf).err)
      ∧ (Installer.Update newResolver vendor resolveAll vcsU hash i conf).result
          = (Installer.Update newResolver vendor resolveAll vcsU' hash i conf).result
      ∧ ∀ d ∈ deps, ∀ e, vcsU d cwd i = .error e →
          updateWarning d e ∈ ConcurrentUpdate vcsU deps cwd i := by
  refine ⟨?_, ?_, ?_⟩
  · cases vendor with
    | error e => exact ⟨rfl, rfl⟩
    | ok cwd' =>
      constructor <;>
        · simp only [Installer.Install]
          split <;> rfl
  · simp only [Installer.Update]
    cases newResolver with
    | error e => rfl
    | ok u =>
      cases allPackages vendor resolveAll conf.Imports with
      | error e => rfl
      | ok packages =>
        cases hash conf with
        | error e => rfl
        | ok h => rfl
  · induction deps with
    | nil => intro d hd; cases hd
    | cons c rest ih =>
      intro d hd e he
      simp only [ConcurrentUpdate]
      rcases List.mem_cons.mp hd with rfl | hd'
      · rw [he]
        exact List.mem_cons_self _ _
      · cases vcsU c cwd i with
        | error e2 => exact List.mem_cons_of_mem _ (ih d hd' e he)
        | ok u => exact ih d hd' e he

/-- Witness for `concurrent_update_failures_only_warn`: a concrete
failing dependency's warning appears in the returned warning list. -/
theorem concurrent_update_failures_only_warn_witness :
    updateWarning { Name := "d" } "boom"
      ∈ ConcurrentUpdate (fun _ _ _ => .error "boom") [{ Name := "d" }] "." {} :=
  (concurrent_update_failures_only_warn (fun _ _ _ => .error "boom")
      (fun _ _ _ => .ok ()) (.ok "vendor") (.ok ()) (fun _ => .ok [])
      (fun _ => .ok "h") {} {} {} [{ Name := "d" }] ".").2.2
    { Name := "d" } (List.mem_cons_self _ _) "boom" rfl

/-- C9: a resolution-phase failure — failure to construct the transitive
resolver, or failure of the resolver's walk (`allPackages`) — is fatal to
the whole `Update` call: the run dies with the corresponding message, no
worker-pool invocation is made, and no lock record is produced. -/
theorem update_resolution_failure_fatal (newResolver : Except String Unit)
    (vendor : Except String String)
    (resolveAll : List Dependency → Except String (List String))
    (vcsUpdate : VcsUpdateFn) (hash : Config → Except String String)
    (i : Installer) (conf : Config) :
    (∀ e, newResolver = .error e →
        Installer.Update newResolver vendor resolveAll vcsUpdate hash i conf
          = ⟨[], [], .died ("Failed to create a resolver: " ++ e)⟩)
      ∧ ∀ e, newResolver = .ok () →
          allPackages vendor resolveAll conf.Imports = .error e →
          Installer.Update newResolver vendor resolveAll vcsUpdate hash i conf
            = ⟨[], [],
                .died ("Failed to retrieve a list of dependencies: " ++ e)⟩ := by
  constructor
  · intro e he
    subst he
    rfl
  · intro e hr hp
    subst hr
    simp only [Installer.Update, hp]

/-- Witness for `update_resolution_failure_fatal`: a concrete failed
resolver construction makes `Update` die with no calls and no lock. -/
theorem update_resolution_failure_fatal_witness :
    Installer.Update (.error "no resolver") (.ok "vendor")
        (fun _ => .ok []) (fun _ _ _ => .ok ()) (fun _ => .ok "h") {} {}
      = ⟨[], [], .died "Failed to create a resolver: no resolver"⟩ :=
  (update_resolution_failure_fatal (.error "no resolver") (.ok "vendor")
      (fun _ => .ok []) (fun _ _ _ => .ok ()) (fun _ => .ok "h") {} {}).1
    "no resolver" rfl

/-- C10: every Dependency synthesized by the aggregator carries an empty
(unresolved) reference, and consequently every entry of the lock record
returned by a successful `Update` has an empty version. -/
theorem aggregator_reference_empty (normalize : String → String × String)
    (pkgs : List String) (newResolver : Except String Unit)
    (vendor : Except String String)
    (resolveAll : List Dependency → Except String (List String))
    (vcsUpdate : VcsUpdateFn) (hash : Config → Except String String)
    (i : Installer) (conf : Config) (lf : Lockfile)
    (hok : (Installer.Update newResolver vendor resolveAll vcsUpdate hash
        i conf).result = .ok lf) :
    (∀ d ∈ depsFromPackages normalize pkgs, d.Reference = "")
      ∧ ∀ l ∈ lf.Imports, l.Version = "" := by
  constructor
  · exact depsFromPackagesAux_ref normalize pkgs []
      (by intro d hd; cases hd)
  · simp only [Installer.Update] at hok
    cases hr : newResolver with
    | error e => rw [hr] at hok; cases hok
    | ok u =>
      rw [hr] at hok
      cases hp : allPackages vendor resolveAll conf.Imports with
      | error e => rw [hp] at hok; cases hok
      | ok packages =>
        rw [hp] at hok
        cases hh : hash conf with
        | error e => rw [hh] at hok; cases hok
        | ok hv =>
          rw [hh] at hok
          injection hok with h
          subst h
          intro l hl
          simp only [NewLockfile, List.mem_map] at hl
          obtain ⟨d, hd, rfl⟩ := hl
          show d.Reference = ""
          exact depsFromPackagesAux_ref NormalizeName packages []
            (by intro d' hd'; cases hd') d hd

/-- Witness for `aggregator_reference_empty`: a concrete successful
`Update` run, whose lock record's single entry has an empty version. -/
theorem aggregator_reference_empty_witness :
    depToLock { Name := "example.com/a", Subpackages := ["sub1"] }
        ∈ (NewLockfile
            (depsFromPackages NormalizeName ["example.com/a/sub1"])
            "h").Imports
      ∧ (depToLock
            { Name := "example.com/a", Subpackages := ["sub1"] }).Version
          = "" :=
  ⟨by decide,
    (aggregator_reference_empty NormalizeName [] (.ok ()) (.ok "v")
        (fun _ => .ok ["example.com/a/sub1"]) (fun _ _ _ => .ok ())
        (fun _ => .ok "h") {} { Imports := [{ Name := "x" }] }
        (NewLockfile (depsFromPackages NormalizeName ["example.com/a/sub1"])
          "h")
        (by decide)).2
      (depToLock { Name := "example.com/a", Subpackages := ["sub1"] })
      (by decide)⟩

end Glide
